import Mathlib

/-!
# Verification of the BizHawk MCP server core (src/bizhawk_mcp_server.py)

Shallow embedding of the address codec, liveness monitor, dual-channel
transport and the orchestration workflows of `bizhawk_mcp_server.py`,
together with theorems settling the specification claims.

Strings handled character-by-character by the Python code (address tokens)
are modelled as `List Char`; other strings (action names, messages) are
plain `String`.  Python floats (timestamps, timeouts) are modelled as `ℚ`;
all comparisons appearing in the claims are exact at that precision.
-/

namespace BizHawk

/-! ## Address codec (normalize_address / format_address) -/

/-- Hex value of a character, as accepted by Python `int(s, 16)`
(digits, `a`-`f`, `A`-`F`). -/
def pyHexVal (c : Char) : Option Nat :=
  if '0' ≤ c ∧ c ≤ '9' then some (c.toNat - 48)
  else if 'a' ≤ c ∧ c ≤ 'f' then some (c.toNat - 87)
  else if 'A' ≤ c ∧ c ≤ 'F' then some (c.toNat - 55)
  else none

/-- Big-endian base-16 accumulation, the value computed by `int(s, 16)`
over a string of hex digits. -/
def hexFoldVal (s : List Char) : Nat :=
  s.foldl (fun a c => 16 * a + (pyHexVal c).getD 0) 0

/-- Model of Python `int(s, 16)` restricted to plain hex-digit strings
(`none` models a raised `ValueError`; the sign/underscore/`0x`-prefix
extensions of Python integer literals are not exercised by address
tokens and are not modelled). -/
def parseHexNat (s : List Char) : Option Nat :=
  if s ≠ [] ∧ s.all (fun c => (pyHexVal c).isSome) then some (hexFoldVal s)
  else none

/-- Model of Python `int(s)` (base 10) under the same restriction. -/
def parseDecNat (s : List Char) : Option Nat :=
  if s ≠ [] ∧ s.all (fun c => '0' ≤ c ∧ c ≤ '9') then
    some (s.foldl (fun a c => 10 * a + (c.toNat - 48)) 0)
  else none

/-- The character class `'abcdefABCDEF'` tested by `normalize_address`. -/
def isHexLetter (c : Char) : Bool :=
  ('a' ≤ c ∧ c ≤ 'f') ∨ ('A' ≤ c ∧ c ≤ 'F')

/-- Model of Python `str.strip()` (whitespace removed from both ends). -/
def pyStrip (s : List Char) : List Char :=
  ((s.dropWhile Char.isWhitespace).reverse.dropWhile Char.isWhitespace).reverse

/-- Last branch of `normalize_address`: hex if any hex letter occurs,
otherwise decimal with fallback to hex. -/
def hexOrDec (addr : List Char) : Option Nat :=
  if addr.any isHexLetter then parseHexNat addr
  else
    match parseDecNat addr with
    | some n => some n
    | none => parseHexNat addr

/-- Model of `normalize_address` on the character list of a string token:
strip, then the `startswith` tests for `$` and `0x`/`0X`, then the
hex-letter heuristic.  (The pass-through branch for arguments that are
already integers is not modelled: the embedding takes string tokens.) -/
def normalize_address (addr0 : List Char) : Option Nat :=
  let addr := pyStrip addr0
  match addr with
  | [] => hexOrDec []
  | c :: rest =>
    if c = '$' then parseHexNat rest
    else
      match rest with
      | c1 :: rest2 =>
        if c = '0' ∧ (c1 = 'x' ∨ c1 = 'X') then parseHexNat rest2
        else hexOrDec (c :: c1 :: rest2)
      | [] => hexOrDec [c]

/-- Uppercase hex digit character for a value below 16
(`'0'` is 48, `'A'` is 65). -/
def hexDigitUpper (n : Nat) : Char :=
  if n < 10 then Char.ofNat (48 + n) else Char.ofNat (55 + n)

/-- Fuel-indexed big-endian uppercase hex digits of `n`
(empty for 0; total once `n ≤ fuel`). -/
def toHexUpperFuel : Nat → Nat → List Char
  | 0, _ => []
  | _ + 1, 0 => []
  | fuel + 1, n + 1 => toHexUpperFuel fuel ((n + 1) / 16) ++ [hexDigitUpper ((n + 1) % 16)]

/-- Big-endian uppercase hex digits of `n` (empty for 0). -/
def toHexUpper (n : Nat) : List Char := toHexUpperFuel n n

/-- Digits of Python `format(n, "X")`: uppercase hex, `"0"` for 0. -/
def hexDigitsX (n : Nat) : List Char := if n = 0 then ['0'] else toHexUpper n

/-- The `04` part of the format spec `04X`: zero-pad to width 4. -/
def pad4 (h : List Char) : List Char := List.replicate (4 - h.length) '0' ++ h

/-- Model of `format_address`: the f-string interpolation with spec `04X`
preceded by a dollar sign. -/
def format_address (addr : Nat) : List Char := '$' :: pad4 (hexDigitsX addr)

/-- The sixteen characters an uppercase hex rendering can produce. -/
def upperHexChars : List Char :=
  ['0', '1', '2', '3', '4', '5', '6', '7', '8', '9', 'A', 'B', 'C', 'D', 'E', 'F']

/-! ### Codec lemmas -/

lemma pyHexVal_hexDigitUpper : ∀ d < 16, pyHexVal (hexDigitUpper d) = some d := by
  decide

lemma hexDigitUpper_mem_upperHexChars : ∀ d < 16, hexDigitUpper d ∈ upperHexChars := by
  decide

lemma upperHexChars_isSome : ∀ c ∈ upperHexChars, (pyHexVal c).isSome := by
  decide

lemma upperHexChars_not_ws : ∀ c ∈ upperHexChars, Char.isWhitespace c = false := by
  decide

lemma hexFoldVal_append_singleton (s : List Char) (c : Char) :
    hexFoldVal (s ++ [c]) = 16 * hexFoldVal s + (pyHexVal c).getD 0 := by
  simp [hexFoldVal, List.foldl_append]

lemma toHexUpperFuel_val : ∀ fuel n, n ≤ fuel → hexFoldVal (toHexUpperFuel fuel n) = n := by
  intro fuel
  induction fuel with
  | zero =>
    intro n hn
    interval_cases n
    simp [toHexUpperFuel, hexFoldVal]
  | succ f ih =>
    intro n hn
    match n with
    | 0 => simp [toHexUpperFuel, hexFoldVal]
    | m + 1 =>
      have hdiv : (m + 1) / 16 ≤ f := by
        have h1 : (m + 1) / 16 < m + 1 := Nat.div_lt_self (Nat.succ_pos m) (by norm_num)
        omega
      rw [toHexUpperFuel, hexFoldVal_append_singleton, ih _ hdiv,
        pyHexVal_hexDigitUpper _ (Nat.mod_lt _ (by norm_num))]
      simp [Nat.div_add_mod]

lemma toHexUpperFuel_length : ∀ fuel n k, n ≤ fuel → n < 16 ^ k →
    (toHexUpperFuel fuel n).length ≤ k := by
  intro fuel
  induction fuel with
  | zero =>
    intro n k hn _
    interval_cases n
    simp [toHexUpperFuel]
  | succ f ih =>
    intro n k hn hk
    match n with
    | 0 => simp [toHexUpperFuel]
    | m + 1 =>
      match k with
      | 0 => omega
      | j + 1 =>
        have hdiv : (m + 1) / 16 ≤ f := by
          have h1 : (m + 1) / 16 < m + 1 := Nat.div_lt_self (Nat.succ_pos m) (by norm_num)
          omega
        have hdivk : (m + 1) / 16 < 16 ^ j := by
          rw [Nat.div_lt_iff_lt_mul (by norm_num : 0 < 16)]
          calc m + 1 < 16 ^ (j + 1) := hk
            _ = 16 ^ j * 16 := by ring
        have := ih ((m + 1) / 16) j hdiv hdivk
        rw [toHexUpperFuel]
        simp only [List.length_append, List.length_cons, List.length_nil]
        omega

lemma toHexUpperFuel_mem : ∀ fuel n c, c ∈ toHexUpperFuel fuel n → c ∈ upperHexChars := by
  intro fuel
  induction fuel with
  | zero =>
    intro n c hc
    simp [toHexUpperFuel] at hc
  | succ f ih =>
    intro n c hc
    match n with
    | 0 => simp [toHexUpperFuel] at hc
    | m + 1 =>
      rw [toHexUpperFuel] at hc
      rcases List.mem_append.mp hc with h | h
      · exact ih _ _ h
      · simp only [List.mem_singleton] at h
        subst h
        exact hexDigitUpper_mem_upperHexChars _ (Nat.mod_lt _ (by norm_num))

lemma hexDigitsX_mem (n : Nat) : ∀ c ∈ hexDigitsX n, c ∈ upperHexChars := by
  intro c hc
  by_cases h : n = 0
  · simp [hexDigitsX, h] at hc
    subst hc; decide
  · simp only [hexDigitsX, if_neg h] at hc
    exact toHexUpperFuel_mem _ _ _ hc

lemma hexDigitsX_val (n : Nat) : hexFoldVal (hexDigitsX n) = n := by
  by_cases h : n = 0
  · subst h; decide
  · simp only [hexDigitsX, if_neg h, toHexUpper]
    exact toHexUpperFuel_val n n le_rfl

lemma hexDigitsX_length_le (n : Nat) (h : n < 65536) : (hexDigitsX n).length ≤ 4 := by
  by_cases h0 : n = 0
  · subst h0; decide
  · simp only [hexDigitsX, if_neg h0, toHexUpper]
    exact toHexUpperFuel_length n n 4 le_rfl (by norm_num at h ⊢; omega)

lemma hexFoldVal_replicate_zero_append (k : Nat) (h : List Char) :
    hexFoldVal (List.replicate k '0' ++ h) = hexFoldVal h := by
  induction k with
  | zero => simp
  | succ j ih =>
    rw [List.replicate_succ]
    simpa [hexFoldVal, pyHexVal] using ih

lemma pad4_length {h : List Char} (hl : h.length ≤ 4) : (pad4 h).length = 4 := by
  simp [pad4]
  omega

lemma pad4_mem {h : List Char} (hm : ∀ c ∈ h, c ∈ upperHexChars) :
    ∀ c ∈ pad4 h, c ∈ upperHexChars := by
  intro c hc
  rcases List.mem_append.mp hc with hrep | hin
  · have := List.eq_of_mem_replicate hrep
    subst this; decide
  · exact hm _ hin

lemma pad4_val (h : List Char) : hexFoldVal (pad4 h) = hexFoldVal h :=
  hexFoldVal_replicate_zero_append _ _

lemma pyStrip_of_no_ws {l : List Char} (h : ∀ c ∈ l, Char.isWhitespace c = false) :
    pyStrip l = l := by
  have drop1 : l.dropWhile Char.isWhitespace = l := by
    cases l with
    | nil => rfl
    | cons c cs =>
      rw [List.dropWhile_cons, if_neg]
      simp [h c (List.mem_cons_self c cs)]
  rw [pyStrip, drop1]
  have drop2 : l.reverse.dropWhile Char.isWhitespace = l.reverse := by
    cases hr : l.reverse with
    | nil => rfl
    | cons c cs =>
      rw [List.dropWhile_cons, if_neg]
      have hcmem : c ∈ l := by
        rw [← List.mem_reverse, hr]; exact List.mem_cons_self c cs
      simp [h c hcmem]
  rw [drop2, List.reverse_reverse]

lemma parseHexNat_of_upperHex {h : List Char} (hne : h ≠ [])
    (hm : ∀ c ∈ h, c ∈ upperHexChars) : parseHexNat h = some (hexFoldVal h) := by
  rw [parseHexNat, if_pos]
  refine ⟨hne, ?_⟩
  rw [List.all_eq_true]
  intro c hc
  exact upperHexChars_isSome c (hm c hc)

/-! ## Liveness monitor (check_bizhawk_alive) -/

/-- Outcome of reading the shared state file: absent, unreadable/unparsable
(the `except` branch, carrying the exception text), or parsed with the
`.get` defaults already applied (`timestamp` default 0, `isPaused`
default false). -/
inductive StateRead where
  | missing
  | unreadable (e : String)
  | ok (timestamp : ℚ) (isPaused : Bool)

/-- Model of `check_bizhawk_alive`, parameterised by the current clock and
the state-file read outcome.  Timestamps are ℚ (Python floats). -/
def check_bizhawk_alive (now : ℚ) (read : StateRead) : Bool × String :=
  match read with
  | .missing =>
    (false, "State file not found. Start BizHawk, load ROM, then load bizhawk_debug_api.lua in Tools > Lua Console")
  | .unreadable e => (false, "Error checking BizHawk status: " ++ e)
  | .ok timestamp isPaused =>
    let age := now - timestamp
    let max_age : ℚ := if isPaused then 120 else 30
    if age > max_age then
      let status := if isPaused then "PAUSED" else "STALE"
      (false, "BizHawk not responding (status=" ++ status ++ ", last update " ++
        toString age.floor ++ "s ago). If using BizHawk pause, the script should still update. Reload bizhawk_debug_api.lua.")
    else (true, "OK")

/-! ## Claim C6: codec round trip -/

/-- C6. For every valid address token `s` whose decoded value fits in 4 hex
digits, `format_address (normalize_address s)` is the canonical form: a `$`
followed by exactly 4 zero-padded upper-case hex digits, and it decodes back
to the same value. -/
theorem C6_codec_roundtrip_canonical (s : List Char) (v : Nat)
    (hdec : normalize_address s = some v) (hfit : v < 65536) :
    format_address v = '$' :: pad4 (hexDigitsX v) ∧
    (pad4 (hexDigitsX v)).length = 4 ∧
    (∀ c ∈ pad4 (hexDigitsX v), c ∈ upperHexChars) ∧
    normalize_address (format_address v) = some v := by
  have hm : ∀ c ∈ pad4 (hexDigitsX v), c ∈ upperHexChars :=
    pad4_mem (hexDigitsX_mem v)
  have hlen : (pad4 (hexDigitsX v)).length = 4 :=
    pad4_length (hexDigitsX_length_le v hfit)
  have hne : pad4 (hexDigitsX v) ≠ [] := by
    intro h
    rw [h] at hlen
    simp at hlen
  refine ⟨rfl, hlen, hm, ?_⟩
  have hnows : ∀ c ∈ format_address v, Char.isWhitespace c = false := by
    intro c hc
    rcases List.mem_cons.mp hc with h | h
    · subst h; decide
    · exact upperHexChars_not_ws c (hm c h)
  rw [normalize_address]
  simp only [format_address] at hnows ⊢
  rw [pyStrip_of_no_ws hnows]
  simp only [if_pos rfl]
  rw [parseHexNat_of_upperHex hne hm, pad4_val, hexDigitsX_val]
  simp

/-- C6 witness: the tokens `"075a"`, `"0x075A"` and `"$075a"` all decode to
1882, which renders canonically as `"$075A"`. -/
theorem C6_codec_roundtrip_canonical_witness :
    normalize_address ['0', '7', '5', 'a'] = some 1882 ∧
    normalize_address ['0', 'x', '0', '7', '5', 'A'] = some 1882 ∧
    normalize_address ['$', '0', '7', '5', 'a'] = some 1882 ∧
    format_address 1882 = ['$', '0', '7', '5', 'A'] ∧
    (format_address 1882 = '$' :: pad4 (hexDigitsX 1882) ∧
      (pad4 (hexDigitsX 1882)).length = 4 ∧
      (∀ c ∈ pad4 (hexDigitsX 1882), c ∈ upperHexChars) ∧
      normalize_address (format_address 1882) = some 1882) :=
  ⟨by decide, by decide, by decide, by decide,
    C6_codec_roundtrip_canonical ['0', '7', '5', 'a'] 1882 (by decide) (by decide)⟩

/-! ## Claim C7: liveness thresholds -/

/-- C7. A readable liveness record is reported alive exactly when its age is
within the threshold: 120s when paused, 30s when running; in particular a
paused record of age 119s is alive and of age 121s is not, and a running
record of age 29s is alive and of age 31s is not. -/
theorem C7_liveness_thresholds :
    (∀ (now ts : ℚ) (p : Bool),
      (check_bizhawk_alive now (.ok ts p)).1 = true ↔
        now - ts ≤ (if p then (120 : ℚ) else 30)) ∧
    (check_bizhawk_alive 119 (.ok 0 true)).1 = true ∧
    (check_bizhawk_alive 121 (.ok 0 true)).1 = false ∧
    (check_bizhawk_alive 29 (.ok 0 false)).1 = true ∧
    (check_bizhawk_alive 31 (.ok 0 false)).1 = false := by
  refine ⟨?_, ?_, ?_, ?_, ?_⟩
  · intro now ts p
    cases p <;> simp only [check_bizhawk_alive, Bool.false_eq_true, if_true, if_false] <;>
      split_ifs with h <;>
        simp only [Bool.false_eq_true, false_iff, not_le, true_iff] <;>
          first
            | exact h
            | exact not_lt.mp h
  · norm_num [check_bizhawk_alive]
  · norm_num [check_bizhawk_alive]
  · norm_num [check_bizhawk_alive]
  · norm_num [check_bizhawk_alive]

/-! ## Transport (send_command_socket / send_command_file / send_command)

The transport is embedded as explicit state passing over `TState`
(the module globals `command_id` and `socket_connection`), with the
outside world (socket connect/exchange outcomes, file write and poll
outcomes, the liveness record) supplied as an environment, and the
channel I/O performed recorded as a trace of `Effect`s. -/

/-- JSON-able parameter values shipped in a command (`None` is `.nil`). -/
inductive PVal where
  | int (n : Int)
  | str (s : String)
  | boolv (b : Bool)
  | nil
deriving DecidableEq

/-- A comparison record `{address, old, new, diff}` from `memory.compare`. -/
structure Candidate where
  address : Int
  old : Int
  new : Int
  diff : Int
deriving DecidableEq

/-- A trace entry `{pc, asm}` from `trace.get`; `none` models a missing
key (the code reads both with `.get` defaults). -/
structure TraceEntry where
  pc : Option String
  asm : Option String
deriving DecidableEq

/-- The `data` payload of a peer response, restricted to the shapes the
orchestration code reads. -/
inductive RData where
  | nodata
  | candidates (cs : List Candidate)
  | entries (es : List TraceEntry)
deriving DecidableEq

/-- A response / result dictionary, restricted to the keys the code
reads or writes (`none` models an absent key). -/
structure SendRes where
  error : Option String := none
  commandId : Option Nat := none
  bizhawk_not_running : Bool := false
  data : RData := .nodata
deriving DecidableEq

/-- The command object `{id, action, **params}`. -/
structure Command where
  id : Nat
  action : String
  params : List (String × PVal)
deriving DecidableEq

/-- Channel I/O performed by one `send_command` call. -/
inductive Effect where
  | connectAttempt (ok : Bool)
  | socketRequest (c : Command)
  | fileRequest (c : Command)
deriving DecidableEq

/-- Outcome of the framed socket exchange for a given command: the first
decoded response line, or any I/O/decode error. -/
inductive ExchangeOut where
  | ok (r : SendRes)
  | ioError
deriving DecidableEq

/-- Environment of the socket path: outcome of a connection attempt and of
the exchange for each command. -/
structure SocketEnv where
  connectOk : Bool
  exchange : Command → ExchangeOut

/-- Outcome of one polling iteration on the response file. -/
inductive PollOut where
  | noFile
  | readError
  | resp (r : SendRes)
deriving DecidableEq

/-- Environment of the file path: write outcome (an exception message on
failure) and the response-file contents observed at each poll. -/
structure FileEnv where
  writeErr : Option String
  polls : Nat → PollOut

/-- The module globals: the correlation-id counter and whether a live
socket handle exists. -/
structure TState where
  command_id : Nat
  socket_connection : Bool
deriving DecidableEq

/-- Full environment of one `send_command` call. -/
structure SendEnv where
  now : ℚ
  stateRead : StateRead
  sock : SocketEnv
  file : FileEnv

def DEFAULT_TIMEOUT : ℚ := 10
def FAST_TIMEOUT : ℚ := 5
def TRACE_MAX_LINES : Int := 1000

/-- The socket exchange once a handle exists: allocate the next id
(`get_next_id`), send the command, read one framed response; any error
tears the connection down and signals file fallback (`none`). -/
def sockExchange (st : TState) (env : SocketEnv) (action : String)
    (params : List (String × PVal)) (effs : List Effect) :
    Option SendRes × TState × List Effect :=
  let cmd_id := st.command_id + 1
  let cmd : Command := { id := cmd_id, action := action, params := params }
  match env.exchange cmd with
  | .ok r =>
    (some r, { command_id := cmd_id, socket_connection := st.socket_connection },
      effs ++ [Effect.socketRequest cmd])
  | .ioError =>
    (none, { command_id := cmd_id, socket_connection := false },
      effs ++ [Effect.socketRequest cmd])

/-- Model of `send_command_socket`: `get_socket_connection` (reuse the
handle or attempt a connect), then the framed exchange; `none` signals
fallback to the file channel. -/
def send_command_socket (st : TState) (env : SocketEnv) (action : String)
    (params : List (String × PVal)) : Option SendRes × TState × List Effect :=
  if st.socket_connection then
    sockExchange st env action params []
  else if env.connectOk then
    sockExchange { st with socket_connection := true } env action params
      [Effect.connectAttempt true]
  else
    (none, st, [Effect.connectAttempt false])

/-- `max_polls = int(timeout / 0.05)`. -/
def max_polls (timeout : ℚ) : Nat := (timeout / (5 / 100)).floor.toNat

/-- The timeout error message of the file channel. -/
def timeoutMsg (timeout : ℚ) : String :=
  "Timeout after " ++ toString timeout ++
    "s. Check if BizHawk has Lua Console open and bizhawk_debug_api.lua loaded."

/-- The polling loop of `send_command_file`: at poll `i` a response whose
`commandId` equals the awaited id is returned; anything else (missing
file, read error, mismatched id) is skipped and polling continues. -/
def file_poll_loop (polls : Nat → PollOut) (cmd_id : Nat) : Nat → Nat → Option SendRes
  | _, 0 => none
  | i, rem + 1 =>
    match polls i with
    | .resp r =>
      if r.commandId = some cmd_id then some r
      else file_poll_loop polls cmd_id (i + 1) rem
    | _ => file_poll_loop polls cmd_id (i + 1) rem

/-- Model of `send_command_file`: allocate the next id, write the command
file (an exception is returned as `{error, commandId}`), then poll until a
correlated response appears or `max_polls` iterations elapse. -/
def send_command_file (st : TState) (env : FileEnv) (action : String) (timeout : ℚ)
    (params : List (String × PVal)) : SendRes × TState × List Effect :=
  let cmd_id := st.command_id + 1
  let st' : TState := { st with command_id := cmd_id }
  let cmd : Command := { id := cmd_id, action := action, params := params }
  match env.writeErr with
  | some e => ({ error := some e, commandId := some cmd_id }, st', [Effect.fileRequest cmd])
  | none =>
    match file_poll_loop env.polls cmd_id 0 (max_polls timeout) with
    | some r => (r, st', [Effect.fileRequest cmd])
    | none =>
      ({ error := some (timeoutMsg timeout), commandId := some cmd_id }, st',
        [Effect.fileRequest cmd])

/-- Model of `send_command`: liveness check first (a negative check returns
immediately with the detail string and the `bizhawk_not_running` flag),
then the socket fast path, then the file fallback. -/
def send_command (st : TState) (env : SendEnv) (action : String) (timeout : ℚ)
    (params : List (String × PVal)) : SendRes × TState × List Effect :=
  let ck := check_bizhawk_alive env.now env.stateRead
  if ck.1 then
    match send_command_socket st env.sock action params with
    | (some r, st2, effs) => (r, st2, effs)
    | (none, st2, effs) =>
      let out := send_command_file st2 env.file action timeout params
      (out.1, out.2.1, effs ++ out.2.2)
  else
    ({ error := some ck.2, bizhawk_not_running := true }, st, [])

/-- The correlation id carried by a channel request, if the effect is one. -/
def requestId : Effect → Option Nat
  | .socketRequest c => some c.id
  | .fileRequest c => some c.id
  | _ => none

/-- Correlation ids of the channel requests issued, in order. -/
def requestIds (effs : List Effect) : List Nat := effs.filterMap requestId

/-- Whether the trace contains a file-channel request. -/
def touchesFile (effs : List Effect) : Bool :=
  effs.any fun e =>
    match e with
    | .fileRequest _ => true
    | _ => false

/-! ### Transport lemmas -/

lemma file_poll_loop_commandId (polls : Nat → PollOut) (cmd_id : Nat) :
    ∀ rem i r, file_poll_loop polls cmd_id i rem = some r → r.commandId = some cmd_id := by
  intro rem
  induction rem with
  | zero =>
    intro i r h
    simp [file_poll_loop] at h
  | succ m ih =>
    intro i r h
    rw [file_poll_loop] at h
    cases hp : polls i with
    | resp r' =>
      simp only [hp] at h
      by_cases hid : r'.commandId = some cmd_id
      · rw [if_pos hid] at h
        cases h
        exact hid
      · rw [if_neg hid] at h
        exact ih _ _ h
    | noFile =>
      simp only [hp] at h
      exact ih _ _ h
    | readError =>
      simp only [hp] at h
      exact ih _ _ h

lemma file_poll_loop_first (polls : Nat → PollOut) (cmd_id : Nat) :
    ∀ rem i r, file_poll_loop polls cmd_id i rem = some r →
      ∃ k, i ≤ k ∧ k < i + rem ∧ polls k = .resp r ∧
        ∀ j, i ≤ j → j < k → ∀ r', polls j = .resp r' → r'.commandId ≠ some cmd_id := by
  intro rem
  induction rem with
  | zero =>
    intro i r h
    simp [file_poll_loop] at h
  | succ m ih =>
    intro i r h
    rw [file_poll_loop] at h
    cases hp : polls i with
    | resp r' =>
      simp only [hp] at h
      by_cases hid : r'.commandId = some cmd_id
      · rw [if_pos hid] at h
        cases h
        exact ⟨i, le_rfl, by omega, hp, fun j hj1 hj2 _ _ => absurd (lt_of_le_of_lt hj1 hj2) (lt_irrefl i)⟩
      · rw [if_neg hid] at h
        obtain ⟨k, hk1, hk2, hk3, hk4⟩ := ih (i + 1) r h
        refine ⟨k, by omega, by omega, hk3, ?_⟩
        intro j hj1 hj2 r'' hr''
        by_cases hji : j = i
        · subst hji
          simp only [hp] at hr''
          cases hr''
          exact hid
        · exact hk4 j (by omega) hj2 r'' hr''
    | noFile =>
      simp only [hp] at h
      obtain ⟨k, hk1, hk2, hk3, hk4⟩ := ih (i + 1) r h
      refine ⟨k, by omega, by omega, hk3, ?_⟩
      intro j hj1 hj2 r'' hr''
      by_cases hji : j = i
      · subst hji
        simp only [hp] at hr''
        cases hr''
      · exact hk4 j (by omega) hj2 r'' hr''
    | readError =>
      simp only [hp] at h
      obtain ⟨k, hk1, hk2, hk3, hk4⟩ := ih (i + 1) r h
      refine ⟨k, by omega, by omega, hk3, ?_⟩
      intro j hj1 hj2 r'' hr''
      by_cases hji : j = i
      · subst hji
        simp only [hp] at hr''
        cases hr''
      · exact hk4 j (by omega) hj2 r'' hr''

lemma send_command_file_parts (st : TState) (env : FileEnv) (action : String)
    (t : ℚ) (params : List (String × PVal)) :
    (send_command_file st env action t params).2.1 =
      ⟨st.command_id + 1, st.socket_connection⟩ ∧
    (send_command_file st env action t params).2.2 =
      [.fileRequest ⟨st.command_id + 1, action, params⟩] ∧
    ((send_command_file st env action t params).1).commandId =
      some (st.command_id + 1) := by
  rw [send_command_file]
  cases henv : env.writeErr with
  | some e => simp
  | none =>
    simp only []
    cases hloop : file_poll_loop env.polls (st.command_id + 1) 0 (max_polls t) with
    | some r =>
      simp [file_poll_loop_commandId env.polls (st.command_id + 1) _ _ _ hloop]
    | none => simp

lemma alive_fresh_running : (check_bizhawk_alive 0 (.ok 0 false)).1 = true := by
  norm_num [check_bizhawk_alive]

/-! ## Claim C8: unreachable peer short-circuits send -/

/-- C8. When the liveness check reports not alive, `send_command` returns an
error result carrying the liveness detail string and the
`bizhawk_not_running` flag immediately: the correlation-id counter and the
socket handle are unchanged and no channel I/O happens. -/
theorem C8_unreachable_shortcircuit (st : TState) (env : SendEnv) (action : String)
    (t : ℚ) (params : List (String × PVal))
    (h : (check_bizhawk_alive env.now env.stateRead).1 = false) :
    send_command st env action t params =
      ({ error := some (check_bizhawk_alive env.now env.stateRead).2,
         commandId := none, bizhawk_not_running := true, data := .nodata }, st, []) := by
  rw [send_command]
  simp [h]

/-- C8 witness: with the state file missing, `send_command` returns the
not-found detail with the flag set, touching nothing. -/
theorem C8_unreachable_shortcircuit_witness :
    send_command ⟨0, false⟩ ⟨0, .missing, ⟨false, fun _ => .ioError⟩, ⟨none, fun _ => .noFile⟩⟩
        "memory.read" 10 [] =
      ({ error := some (check_bizhawk_alive 0 .missing).2,
         commandId := none, bizhawk_not_running := true, data := .nodata }, ⟨0, false⟩, []) :=
  C8_unreachable_shortcircuit ⟨0, false⟩
    ⟨0, .missing, ⟨false, fun _ => .ioError⟩, ⟨none, fun _ => .noFile⟩⟩
    "memory.read" 10 [] rfl

/-! ## Claim C2: response correlation -/

/-- C2 counterexample: on the socket channel no `commandId` verification is
performed.  With a live connection and a peer whose framed response carries
`commandId = 999`, `send_command` returns that response to the caller even
though the id allocated for the request is 1. -/
theorem C2_counterexample :
    ((send_command ⟨0, true⟩
        ⟨0, .ok 0 false, ⟨true, fun _ => .ok { commandId := some 999 }⟩,
          ⟨none, fun _ => .noFile⟩⟩ "memory.read" 10 []).1).commandId = some 999 ∧
    ((send_command ⟨0, true⟩
        ⟨0, .ok 0 false, ⟨true, fun _ => .ok { commandId := some 999 }⟩,
          ⟨none, fun _ => .noFile⟩⟩ "memory.read" 10 []).2.1).command_id = 1 ∧
    (999 : Nat) ≠ 1 := by
  rw [send_command]
  simp [alive_fresh_running, send_command_socket, sockExchange]

/-- C2 amended: on the file channel every value returned by
`send_command_file` (a correlated peer response, a write-error result or a
timeout result) carries the id allocated by the file channel, and a polled
response with a mismatched id is never returned: polling skips it and
continues, returning only the first matching response.  On the socket
channel, the first framed response is returned as-is, without id
verification. -/
theorem C2_amended_correlation :
    (∀ (st : TState) (env : FileEnv) (action : String) (t : ℚ)
        (params : List (String × PVal)),
      ((send_command_file st env action t params).1).commandId =
        some (st.command_id + 1)) ∧
    (∀ (polls : Nat → PollOut) (cmd_id n : Nat) (r : SendRes),
      file_poll_loop polls cmd_id 0 n = some r →
        r.commandId = some cmd_id ∧
        ∃ k < n, polls k = .resp r ∧
          ∀ j < k, ∀ r', polls j = .resp r' → r'.commandId ≠ some cmd_id) ∧
    (∀ (cid : Nat) (env : SocketEnv) (action : String)
        (params : List (String × PVal)),
      send_command_socket ⟨cid, true⟩ env action params =
        match env.exchange ⟨cid + 1, action, params⟩ with
        | .ok r => (some r, ⟨cid + 1, true⟩,
            [.socketRequest ⟨cid + 1, action, params⟩])
        | .ioError => (none, ⟨cid + 1, false⟩,
            [.socketRequest ⟨cid + 1, action, params⟩])) := by
  refine ⟨?_, ?_, ?_⟩
  · intro st env action t params
    exact (send_command_file_parts st env action t params).2.2
  · intro polls cmd_id n r h
    refine ⟨file_poll_loop_commandId polls cmd_id n 0 r h, ?_⟩
    obtain ⟨k, _, hk2, hk3, hk4⟩ := file_poll_loop_first polls cmd_id n 0 r h
    exact ⟨k, by omega, hk3, fun j hj r' hr' => hk4 j (Nat.zero_le j) hj r' hr'⟩
  · intro cid env action params
    cases hx : env.exchange ⟨cid + 1, action, params⟩ <;>
      simp [send_command_socket, sockExchange, hx]

/-- C2 amended witness: a mismatched response (id 5) polled before the
matching one (id 7) is skipped, and the matching response is the one
returned. -/
theorem C2_amended_correlation_witness :
    ({ commandId := some 7 } : SendRes).commandId = some 7 ∧
    ∃ k < 3,
      (fun i => if i = 0 then PollOut.resp { commandId := some 5 }
        else PollOut.resp { commandId := some 7 }) k =
          .resp { commandId := some 7 } ∧
      ∀ j < k, ∀ r',
        (fun i => if i = 0 then PollOut.resp { commandId := some 5 }
          else PollOut.resp { commandId := some 7 }) j = .resp r' →
        r'.commandId ≠ some 7 :=
  C2_amended_correlation.2.1
    (fun i => if i = 0 then PollOut.resp { commandId := some 5 }
      else PollOut.resp { commandId := some 7 })
    7 3 { commandId := some 7 } (by decide)

/-! ## Claim C9: id allocation -/

/-- C9 counterexample: a send that passes liveness, finds a live socket
handle whose exchange fails, and degrades to the file channel allocates two
correlation ids, not one: the socket request carries id 1, the file request
id 2, and the file-channel error result carries the file channel id 2. -/
theorem C9_counterexample :
    ((send_command ⟨0, true⟩
        ⟨0, .ok 0 false, ⟨true, fun _ => .ioError⟩,
          ⟨some "disk full", fun _ => .noFile⟩⟩
        "memory.read" 10 []).2.1).command_id = 2 ∧
    (send_command ⟨0, true⟩
        ⟨0, .ok 0 false, ⟨true, fun _ => .ioError⟩,
          ⟨some "disk full", fun _ => .noFile⟩⟩
        "memory.read" 10 []).2.2 =
      [.socketRequest ⟨1, "memory.read", []⟩, .fileRequest ⟨2, "memory.read", []⟩] ∧
    ((send_command ⟨0, true⟩
        ⟨0, .ok 0 false, ⟨true, fun _ => .ioError⟩,
          ⟨some "disk full", fun _ => .noFile⟩⟩
        "memory.read" 10 []).1).commandId = some 2 := by
  rw [send_command]
  simp [alive_fresh_running, send_command_socket, sockExchange, send_command_file]

/-- C9 amended: a send that passes the liveness check issues one or two
channel requests; each request carries the id freshly allocated for it by
its channel (the ids are consecutive, starting right above the entry
counter), the counter advances by exactly the number of requests issued,
and whenever the file channel was used the returned result carries the
file request's id (the last allocated). -/
theorem C9_amended_id_allocation (st : TState) (env : SendEnv) (action : String)
    (t : ℚ) (params : List (String × PVal))
    (halive : (check_bizhawk_alive env.now env.stateRead).1 = true) :
    requestIds (send_command st env action t params).2.2 =
      List.range' (st.command_id + 1)
        (requestIds (send_command st env action t params).2.2).length ∧
    ((send_command st env action t params).2.1).command_id =
      st.command_id + (requestIds (send_command st env action t params).2.2).length ∧
    1 ≤ (requestIds (send_command st env action t params).2.2).length ∧
    (requestIds (send_command st env action t params).2.2).length ≤ 2 ∧
    (touchesFile (send_command st env action t params).2.2 = true →
      ((send_command st env action t params).1).commandId =
        some ((send_command st env action t params).2.1).command_id) := by
  rw [send_command]
  simp only [halive, if_true]
  cases hconn : st.socket_connection with
  | true =>
    rw [send_command_socket, if_pos hconn, sockExchange]
    cases hx : env.sock.exchange ⟨st.command_id + 1, action, params⟩ with
    | ok r =>
      simp [requestIds, requestId, touchesFile, List.range']
    | ioError =>
      rcases hout : send_command_file ⟨st.command_id + 1, false⟩ env.file action t params
        with ⟨r2, st2, effs2⟩
      have h1 := (send_command_file_parts ⟨st.command_id + 1, false⟩ env.file action t params).1
      have h2 := (send_command_file_parts ⟨st.command_id + 1, false⟩ env.file action t params).2.1
      have h3 := (send_command_file_parts ⟨st.command_id + 1, false⟩ env.file action t params).2.2
      rw [hout] at h1 h2 h3
      simp only at h1 h2 h3
      simp [hout, h1, h2, h3, requestIds, requestId, touchesFile, List.range']
  | false =>
    rw [send_command_socket, if_neg (by simp [hconn])]
    cases hok : env.sock.connectOk with
    | true =>
      simp only [if_pos rfl]
      rw [sockExchange]
      cases hx : env.sock.exchange ⟨st.command_id + 1, action, params⟩ with
      | ok r =>
        simp [requestIds, requestId, touchesFile, List.range']
      | ioError =>
        rcases hout : send_command_file ⟨st.command_id + 1, false⟩ env.file action t params
          with ⟨r2, st2, effs2⟩
        have h1 := (send_command_file_parts ⟨st.command_id + 1, false⟩ env.file action t params).1
        have h2 := (send_command_file_parts ⟨st.command_id + 1, false⟩ env.file action t params).2.1
        have h3 := (send_command_file_parts ⟨st.command_id + 1, false⟩ env.file action t params).2.2
        rw [hout] at h1 h2 h3
        simp only at h1 h2 h3
        simp [hout, h1, h2, h3, requestIds, requestId, touchesFile, List.range']
    | false =>
      simp only [Bool.false_eq_true, if_false]
      rcases hout : send_command_file st env.file action t params
        with ⟨r2, st2, effs2⟩
      have h1 := (send_command_file_parts st env.file action t params).1
      have h2 := (send_command_file_parts st env.file action t params).2.1
      have h3 := (send_command_file_parts st env.file action t params).2.2
      rw [hout] at h1 h2 h3
      simp only at h1 h2 h3
      simp [hout, h1, h2, h3, requestIds, requestId, touchesFile, List.range']

/-- C9 amended witness: a send with no existing handle and a failed connect
issues exactly one file request with id 1 and the timeout result carries
id 1. -/
theorem C9_amended_id_allocation_witness :
    requestIds (send_command ⟨0, false⟩
        ⟨0, .ok 0 false, ⟨false, fun _ => .ioError⟩, ⟨none, fun _ => .noFile⟩⟩
        "memory.read" (1 / 10) []).2.2 =
      List.range' 1
        (requestIds (send_command ⟨0, false⟩
          ⟨0, .ok 0 false, ⟨false, fun _ => .ioError⟩, ⟨none, fun _ => .noFile⟩⟩
          "memory.read" (1 / 10) []).2.2).length ∧
    ((send_command ⟨0, false⟩
        ⟨0, .ok 0 false, ⟨false, fun _ => .ioError⟩, ⟨none, fun _ => .noFile⟩⟩
        "memory.read" (1 / 10) []).2.1).command_id =
      0 + (requestIds (send_command ⟨0, false⟩
        ⟨0, .ok 0 false, ⟨false, fun _ => .ioError⟩, ⟨none, fun _ => .noFile⟩⟩
        "memory.read" (1 / 10) []).2.2).length ∧
    1 ≤ (requestIds (send_command ⟨0, false⟩
        ⟨0, .ok 0 false, ⟨false, fun _ => .ioError⟩, ⟨none, fun _ => .noFile⟩⟩
        "memory.read" (1 / 10) []).2.2).length ∧
    (requestIds (send_command ⟨0, false⟩
        ⟨0, .ok 0 false, ⟨false, fun _ => .ioError⟩, ⟨none, fun _ => .noFile⟩⟩
        "memory.read" (1 / 10) []).2.2).length ≤ 2 ∧
    (touchesFile (send_command ⟨0, false⟩
        ⟨0, .ok 0 false, ⟨false, fun _ => .ioError⟩, ⟨none, fun _ => .noFile⟩⟩
        "memory.read" (1 / 10) []).2.2 = true →
      ((send_command ⟨0, false⟩
          ⟨0, .ok 0 false, ⟨false, fun _ => .ioError⟩, ⟨none, fun _ => .noFile⟩⟩
          "memory.read" (1 / 10) []).1).commandId =
        some ((send_command ⟨0, false⟩
          ⟨0, .ok 0 false, ⟨false, fun _ => .ioError⟩, ⟨none, fun _ => .noFile⟩⟩
          "memory.read" (1 / 10) []).2.1).command_id) :=
  C9_amended_id_allocation ⟨0, false⟩
    ⟨0, .ok 0 false, ⟨false, fun _ => .ioError⟩, ⟨none, fun _ => .noFile⟩⟩
    "memory.read" (1 / 10) [] alive_fresh_running

/-! ## Orchestrator workflows (call_tool branches)

Workflows are fixed sequences of `send_command` calls with local
aggregation.  For this layer the transport is abstracted as an oracle
`o : Nat → SendRes` giving the result of the k-th send of the sequence
(the spec treats the workflows as sequences of Transport calls); the
workflow value is the tool result together with the list of issued calls
(action plus `**params`; the per-call timeout constants are not part of
the command shipped to the peer and are omitted). -/

/-- One transport call issued by a workflow: the action and the `**params`
passed to `send_command`. -/
structure SCall where
  action : String
  params : List (String × PVal)
deriving DecidableEq

/-- `result.get("data", [])` read as a candidate list. -/
def getCandidates (r : SendRes) : List Candidate :=
  match r.data with
  | .candidates cs => cs
  | _ => []

/-- `result.get("data", [])` read as a trace-entry list. -/
def getEntries (r : SendRes) : List TraceEntry :=
  match r.data with
  | .entries es => es
  | _ => []

/-- `"error" in result`. -/
def hasError (r : SendRes) : Bool := r.error.isSome

/-- One aggregated hotspot `{pc, count, mnemonic}`. -/
structure HotSpot where
  pc : String
  count : Nat
  mnemonic : String
deriving DecidableEq

/-- Tool results, restricted to the shapes produced by the embedded
branches of `call_tool`.  `.res` is a propagated sub-call result
dictionary; `.hunter` is the summary dictionary of
`emu_cheat_find_decrementing_value` (whose constant `status: "completed"`
field is implicit); `.traceSummary` is the summary dictionary of
`emu_debug_trace_and_summarize`; `.freezeDisabled` is the literal
feature-disabled error dictionary with its three message strings. -/
inductive ToolOutcome where
  | res (r : SendRes)
  | hunter (candidates : List Candidate) (totalFound : Nat) (afterFilter : Nat)
      (framesAdvanced : Int)
  | traceSummary (framesTraced : Int) (instructionsLogged : Nat)
      (uniqueAddresses : Nat) (hotspots : List HotSpot)
  | freezeDisabled (error message reason : String)
deriving DecidableEq

/-- Arguments of `emu_cheat_find_decrementing_value` (absent keys are
`none`; defaults are applied inside, as in the code). -/
structure HunterArgs where
  frames : Option Int := none
  initialValue : Option Int := none
  minDecrement : Option Int := none
deriving DecidableEq

/-- Model of the `emu_cheat_find_decrementing_value` branch of `call_tool`.
`was_paused` is `read_state().get("isPaused", False)`. -/
def emu_cheat_find_decrementing_value (o : Nat → SendRes) (was_paused : Bool)
    (args : HunterArgs) : ToolOutcome × List SCall :=
  let frames : Int := min (args.frames.getD 60) 300
  let initial_value := args.initialValue
  let min_decrement : Int := args.minDecrement.getD 1
  let c0 : SCall := { action := "execution.pause", params := [] }
  let c1 : SCall := { action := "memory.snapshot", params := [("name", .str "decr_hunt")] }
  let snap_result := o 1
  if hasError snap_result then
    (.res snap_result, [c0, c1])
  else
    let c2 : SCall := { action := "execution.resume", params := [] }
    let c3 : SCall :=
      { action := "execution.step",
        params := [("count", .int frames), ("stepType", .str "frame")] }
    let c4 : SCall := { action := "execution.pause", params := [] }
    let c5 : SCall :=
      { action := "memory.compare",
        params := [("name", .str "decr_hunt"), ("filter", .str "decreased")] }
    let compare_result := o 5
    let body : ToolOutcome :=
      if hasError compare_result then .res compare_result
      else
        let candidates := getCandidates compare_result
        let filtered := candidates.filter fun c => c.diff ≤ -min_decrement
        let filtered :=
          match initial_value with
          | some iv => filtered.filter fun (c : Candidate) => c.old = iv
          | none => filtered
        let filtered := filtered.take 200
        .hunter filtered candidates.length filtered.length frames
    if was_paused then (body, [c0, c1, c2, c3, c4, c5])
    else
      (body, [c0, c1, c2, c3, c4, c5, { action := "execution.resume", params := [] }])

/-- The program counter an entry aggregates under. -/
def entryPC (e : TraceEntry) : String := e.pc.getD "unknown"

/-- Number of trace entries at a given program counter. -/
def countPC (entries : List TraceEntry) (pc : String) : Nat :=
  (entries.filter fun e => entryPC e = pc).length

/-- Mnemonic of the first entry at a given program counter. -/
def firstAsmAt (entries : List TraceEntry) (pc : String) : Option String :=
  (entries.find? fun e => entryPC e = pc).map fun e => e.asm.getD "???"

/-- Mnemonic of the last entry at a given program counter — the claim's
words (`the instruction mnemonic last seen at that PC`), for comparison
with the aggregation the code performs. -/
def lastAsmAt (entries : List TraceEntry) (pc : String) : Option String :=
  ((entries.filter fun e => entryPC e = pc).getLast?).map fun e => e.asm.getD "???"

/-- One iteration of the `pc_counts` aggregation loop of
`emu_debug_trace_and_summarize`: a key not yet present is inserted at the
end with count 1 and the entry's mnemonic; a present key has its count
incremented and its mnemonic left as first recorded. -/
def aggStep (m : List HotSpot) (e : TraceEntry) : List HotSpot :=
  let pc := entryPC e
  let asm := e.asm.getD "???"
  if m.any fun h => h.pc == pc then
    m.map fun h => if h.pc == pc then { h with count := h.count + 1 } else h
  else
    m ++ [{ pc := pc, count := 1, mnemonic := asm }]

/-- The `pc_counts` aggregation of `emu_debug_trace_and_summarize`, as an
insertion-ordered association list (Python dicts preserve insertion
order). -/
def aggregate_trace (entries : List TraceEntry) : List HotSpot :=
  entries.foldl aggStep []

/-- Stable insertion into a count-descending list (an element is placed
before the first strictly smaller count, after equal counts). -/
def insertDesc (h : HotSpot) : List HotSpot → List HotSpot
  | [] => [h]
  | x :: xs => if x.count ≤ h.count then h :: x :: xs else x :: insertDesc h xs

/-- Stable descending sort by count, the behaviour of Python
`sorted(..., key=lambda x: x["count"], reverse=True)` (stable sorts with
the same key order produce identical output). -/
def sortHotspotsDesc (l : List HotSpot) : List HotSpot := l.foldr insertDesc []

/-- Arguments of `emu_debug_trace_and_summarize`. -/
structure TraceArgs where
  frames : Option Int := none
  topN : Option Nat := none
deriving DecidableEq

/-- Model of the `emu_debug_trace_and_summarize` branch of `call_tool`.
All seven transport calls are issued unconditionally; only the result of
the `trace.get` call (index 6) feeds the local aggregation. -/
def emu_debug_trace_and_summarize (o : Nat → SendRes) (args : TraceArgs) :
    ToolOutcome × List SCall :=
  let frames : Int := min (args.frames.getD 60) 300
  let top_n : Nat := args.topN.getD 20
  let calls : List SCall :=
    [ { action := "trace.clear", params := [] },
      { action := "trace.start", params := [] },
      { action := "execution.resume", params := [] },
      { action := "execution.step",
        params := [("count", .int frames), ("stepType", .str "frame")] },
      { action := "execution.pause", params := [] },
      { action := "trace.stop", params := [] },
      { action := "trace.get", params := [("count", .int TRACE_MAX_LINES)] } ]
  let trace_result := o 6
  let entries := getEntries trace_result
  let pc_counts := aggregate_trace entries
  let sorted_hotspots := (sortHotspotsDesc pc_counts).take top_n
  (.traceSummary frames entries.length pc_counts.length sorted_hotspots, calls)

/-! ### Aggregation and sorting lemmas -/

lemma insertDesc_perm (h : HotSpot) : ∀ l : List HotSpot, (insertDesc h l).Perm (h :: l) := by
  intro l
  induction l with
  | nil => simp [insertDesc]
  | cons x xs ih =>
    rw [insertDesc]
    split_ifs with hc
    · exact List.Perm.refl _
    · exact List.Perm.trans (List.Perm.cons x ih) (List.Perm.swap h x xs)

lemma sortHotspotsDesc_perm : ∀ l : List HotSpot, (sortHotspotsDesc l).Perm l := by
  intro l
  induction l with
  | nil => simp [sortHotspotsDesc]
  | cons x xs ih =>
    rw [sortHotspotsDesc, List.foldr_cons]
    exact List.Perm.trans (insertDesc_perm x _) (List.Perm.cons x ih)

lemma insertDesc_sorted (h : HotSpot) :
    ∀ l : List HotSpot, List.Pairwise (fun a b => b.count ≤ a.count) l →
      List.Pairwise (fun a b => b.count ≤ a.count) (insertDesc h l) := by
  intro l
  induction l with
  | nil =>
    intro _
    simp [insertDesc]
  | cons x xs ih =>
    intro hp
    rw [List.pairwise_cons] at hp
    rw [insertDesc]
    split_ifs with hc
    · rw [List.pairwise_cons]
      refine ⟨?_, List.pairwise_cons.mpr hp⟩
      intro y hy
      rcases List.mem_cons.mp hy with hy2 | hy2
      · subst hy2
        exact hc
      · exact le_trans (hp.1 y hy2) hc
    · rw [List.pairwise_cons]
      refine ⟨?_, ih hp.2⟩
      intro y hy
      have hy2 := (insertDesc_perm h xs).mem_iff.mp hy
      rcases List.mem_cons.mp hy2 with hy3 | hy3
      · subst hy3
        omega
      · exact hp.1 y hy3

lemma sortHotspotsDesc_sorted :
    ∀ l : List HotSpot, List.Pairwise (fun a b => b.count ≤ a.count) (sortHotspotsDesc l) := by
  intro l
  induction l with
  | nil => simp [sortHotspotsDesc]
  | cons x xs ih =>
    rw [sortHotspotsDesc, List.foldr_cons]
    exact insertDesc_sorted x _ ih

lemma countPC_append_single (l : List TraceEntry) (e : TraceEntry) (pc : String) :
    countPC (l ++ [e]) pc = countPC l pc + (if entryPC e = pc then 1 else 0) := by
  rw [countPC, List.filter_append, List.length_append, countPC]
  congr 1
  by_cases h : entryPC e = pc <;> simp [h]

lemma countPC_eq_zero_iff (l : List TraceEntry) (pc : String) :
    countPC l pc = 0 ↔ ∀ e ∈ l, entryPC e ≠ pc := by
  rw [countPC, List.length_eq_zero, List.filter_eq_nil_iff]
  simp

lemma firstAsmAt_append_of_pos (l : List TraceEntry) (e : TraceEntry) (pc : String)
    (h : 0 < countPC l pc) : firstAsmAt (l ++ [e]) pc = firstAsmAt l pc := by
  rw [firstAsmAt, firstAsmAt, List.find?_append]
  cases hf : l.find? (fun e => entryPC e = pc) with
  | some x => simp
  | none =>
    exfalso
    rw [List.find?_eq_none] at hf
    have hz : countPC l pc = 0 := by
      rw [countPC_eq_zero_iff]
      intro x hx
      have := hf x hx
      simpa using this
    omega

lemma firstAsmAt_append_of_zero (l : List TraceEntry) (e : TraceEntry) (pc : String)
    (h : countPC l pc = 0) (hpc : entryPC e = pc) :
    firstAsmAt (l ++ [e]) pc = some (e.asm.getD "???") := by
  rw [firstAsmAt, List.find?_append]
  have hf : l.find? (fun e => entryPC e = pc) = none := by
    rw [List.find?_eq_none]
    intro x hx
    have := (countPC_eq_zero_iff l pc).mp h x hx
    simpa using this
  rw [hf]
  simp [List.find?_cons, hpc]

lemma aggStep_pc_preserved (m : List HotSpot) (e : TraceEntry)
    (hmem : (m.any fun h => h.pc == entryPC e) = true) :
    (aggStep m e).map HotSpot.pc = m.map HotSpot.pc := by
  simp only [aggStep]
  rw [if_pos hmem, List.map_map]
  refine List.map_congr_left ?_
  intro h _
  simp only [Function.comp_apply]
  split_ifs <;> rfl

/-- Invariant of the aggregation loop: distinct keys; each key carries the
number of entries at that program counter and the mnemonic of the first
entry at it; the keys are exactly the program counters occurring in the
list. -/
lemma aggregate_trace_spec (entries : List TraceEntry) :
    ((aggregate_trace entries).map HotSpot.pc).Nodup ∧
    (∀ h ∈ aggregate_trace entries,
      h.count = countPC entries h.pc ∧ firstAsmAt entries h.pc = some h.mnemonic) ∧
    (∀ pc, pc ∈ (aggregate_trace entries).map HotSpot.pc ↔ 0 < countPC entries pc) := by
  induction entries using List.reverseRecOn with
  | nil =>
    refine ⟨by simp [aggregate_trace], by simp [aggregate_trace], ?_⟩
    intro pc
    simp [aggregate_trace, countPC]
  | append_singleton l e ih =>
    obtain ⟨ih1, ih2, ih3⟩ := ih
    have hagg : aggregate_trace (l ++ [e]) = aggStep (aggregate_trace l) e := by
      rw [aggregate_trace, List.foldl_append, List.foldl_cons, List.foldl_nil]
      rfl
    set m := aggregate_trace l with hm
    by_cases hmem : (m.any fun h => h.pc == entryPC e) = true
    · -- the program counter is already a key: count bumped, mnemonic kept
      have hpcs := aggStep_pc_preserved m e hmem
      have hpc_in : entryPC e ∈ m.map HotSpot.pc := by
        rw [List.any_eq_true] at hmem
        obtain ⟨h, hh, hbeq⟩ := hmem
        rw [List.mem_map]
        exact ⟨h, hh, by simpa using hbeq⟩
      have hcnt_pos : 0 < countPC l (entryPC e) := (ih3 _).mp hpc_in
      refine ⟨by rw [hagg, hpcs]; exact ih1, ?_, ?_⟩
      · intro h hh
        rw [hagg] at hh
        simp only [aggStep] at hh
        rw [if_pos hmem] at hh
        rw [List.mem_map] at hh
        obtain ⟨h0, hh0, hupd⟩ := hh
        obtain ⟨hcount0, hfirst0⟩ := ih2 h0 hh0
        by_cases heq : h0.pc == entryPC e
        · rw [if_pos heq] at hupd
          subst hupd
          have heq2 : h0.pc = entryPC e := by simpa using heq
          constructor
          · show h0.count + 1 = countPC (l ++ [e]) h0.pc
            rw [heq2, countPC_append_single, if_pos rfl, ← heq2]
            omega
          · show firstAsmAt (l ++ [e]) h0.pc = some h0.mnemonic
            rw [heq2, firstAsmAt_append_of_pos l e _ hcnt_pos, ← heq2]
            exact hfirst0
        · rw [if_neg heq] at hupd
          subst hupd
          have hne : entryPC e ≠ h0.pc := by
            intro hcon
            simp [hcon] at heq
          have hpos0 : 0 < countPC l h0.pc := (ih3 _).mp (List.mem_map.mpr ⟨h0, hh0, rfl⟩)
          constructor
          · rw [countPC_append_single, if_neg hne]
            omega
          · rw [firstAsmAt_append_of_pos l e _ hpos0]
            exact hfirst0
      · intro pc
        rw [hagg, hpcs, ih3, countPC_append_single]
        by_cases hpe : entryPC e = pc
        · subst hpe
          simp only [if_pos rfl]
          constructor
          · omega
          · intro _
            exact hcnt_pos
        · simp [hpe]
    · -- a fresh program counter: appended with count 1 and the entry's mnemonic
      have hnotin : entryPC e ∉ m.map HotSpot.pc := by
        intro hcon
        rw [List.mem_map] at hcon
        obtain ⟨h, hh, hpc⟩ := hcon
        apply hmem
        rw [List.any_eq_true]
        exact ⟨h, hh, by simp [hpc]⟩
      have hzero : countPC l (entryPC e) = 0 := by
        by_contra hnz
        exact hnotin ((ih3 _).mpr (Nat.pos_of_ne_zero hnz))
      have hagg2 : aggregate_trace (l ++ [e]) =
          m ++ [{ pc := entryPC e, count := 1, mnemonic := e.asm.getD "???" }] := by
        rw [hagg]
        simp only [aggStep]
        rw [if_neg hmem]
      refine ⟨?_, ?_, ?_⟩
      · rw [hagg2, List.map_append, List.nodup_append]
        refine ⟨ih1, by simp, ?_⟩
        intro pc hpc1 hpc2
        simp only [List.map_cons, List.map_nil, List.mem_singleton] at hpc2
        subst hpc2
        exact hnotin hpc1
      · intro h hh
        rw [hagg2, List.mem_append] at hh
        rcases hh with hh | hh
        · obtain ⟨hcount0, hfirst0⟩ := ih2 h hh
          have hne : entryPC e ≠ h.pc := by
            intro hcon
            exact hnotin (hcon ▸ List.mem_map.mpr ⟨h, hh, rfl⟩)
          constructor
          · rw [countPC_append_single, if_neg hne]
            omega
          · have hpos0 : 0 < countPC l h.pc := (ih3 _).mp (List.mem_map.mpr ⟨h, hh, rfl⟩)
            rw [firstAsmAt_append_of_pos l e _ hpos0]
            exact hfirst0
        · simp only [List.mem_singleton] at hh
          subst hh
          constructor
          · show (1 : Nat) = countPC (l ++ [e]) (entryPC e)
            rw [countPC_append_single, if_pos rfl, hzero]
          · show firstAsmAt (l ++ [e]) (entryPC e) = some (e.asm.getD "???")
            exact firstAsmAt_append_of_zero l e _ hzero rfl
      · intro pc
        rw [hagg2, List.map_append]
        simp only [List.map_cons, List.map_nil, List.mem_append, List.mem_singleton]
        rw [ih3, countPC_append_single]
        by_cases hpe : entryPC e = pc
        · subst hpe
          simp [hzero]
        · simp only [hpe, if_false]
          constructor
          · intro hor
            rcases hor with hin | hcon
            · omega
            · exact absurd hcon.symm hpe
          · intro hpos
            left
            omega

/-! ## Claim C4: trace aggregation -/

/-- C4 counterexample: the aggregation keeps the mnemonic FIRST seen at a
program counter, not the one last seen.  For entries `LDA` then `NOP` at
the same PC, the reported hotspot carries `LDA` while the mnemonic last
seen there is `NOP`. -/
theorem C4_counterexample :
    (emu_debug_trace_and_summarize
        (fun _ => { data := .entries [⟨some "$8000", some "LDA"⟩, ⟨some "$8000", some "NOP"⟩] })
        {}).1 =
      .traceSummary 60 2 1 [⟨"$8000", 2, "LDA"⟩] ∧
    lastAsmAt [⟨some "$8000", some "LDA"⟩, ⟨some "$8000", some "NOP"⟩] "$8000" =
      some "NOP" ∧
    ("LDA" : String) ≠ "NOP" :=
  ⟨by decide, by decide, by decide⟩

/-- C4 amended: the trace-and-summarize aggregation produces, per program
counter, the count of entries at that PC together with the mnemonic FIRST
seen at that PC in the entry list, sorted descending by count and truncated
to the caller-chosen top-N (default 20); before truncation the keys are
exactly the distinct program counters of the entry list. -/
theorem C4_amended_trace_aggregation (o : Nat → SendRes) (args : TraceArgs)
    (fr : Int) (il ua : Nat) (hs : List HotSpot)
    (hout : (emu_debug_trace_and_summarize o args).1 = .traceSummary fr il ua hs) :
    hs.length ≤ args.topN.getD 20 ∧
    List.Pairwise (fun a b => b.count ≤ a.count) hs ∧
    (∀ h ∈ hs, h.count = countPC (getEntries (o 6)) h.pc ∧
      firstAsmAt (getEntries (o 6)) h.pc = some h.mnemonic) ∧
    ua = (aggregate_trace (getEntries (o 6))).length ∧
    ((aggregate_trace (getEntries (o 6))).map HotSpot.pc).Nodup ∧
    (∀ pc, pc ∈ (aggregate_trace (getEntries (o 6))).map HotSpot.pc ↔
      0 < countPC (getEntries (o 6)) pc) := by
  obtain ⟨hnodup, hmem, hiff⟩ := aggregate_trace_spec (getEntries (o 6))
  simp only [emu_debug_trace_and_summarize, ToolOutcome.traceSummary.injEq] at hout
  obtain ⟨_, _, hua, hhs⟩ := hout
  subst hhs
  subst hua
  refine ⟨List.length_take_le _ _, ?_, ?_, rfl, hnodup, hiff⟩
  · exact List.Pairwise.sublist (List.take_sublist _ _) (sortHotspotsDesc_sorted _)
  · intro h hh
    have hh2 : h ∈ sortHotspotsDesc (aggregate_trace (getEntries (o 6))) :=
      (List.take_sublist _ _).subset hh
    have hh3 : h ∈ aggregate_trace (getEntries (o 6)) :=
      (sortHotspotsDesc_perm _).mem_iff.mp hh2
    exact hmem h hh3

/-- C4 amended witness: a single entry at `$9000` with mnemonic `JMP`
aggregates to one hotspot of count 1 and mnemonic `JMP`. -/
theorem C4_amended_trace_aggregation_witness :
    ([⟨"$9000", 1, "JMP"⟩] : List HotSpot).length ≤ ({} : TraceArgs).topN.getD 20 ∧
    List.Pairwise (fun a b => b.count ≤ a.count) ([⟨"$9000", 1, "JMP"⟩] : List HotSpot) ∧
    (∀ h ∈ ([⟨"$9000", 1, "JMP"⟩] : List HotSpot),
      h.count = countPC [⟨some "$9000", some "JMP"⟩] h.pc ∧
      firstAsmAt [⟨some "$9000", some "JMP"⟩] h.pc = some h.mnemonic) ∧
    1 = (aggregate_trace [⟨some "$9000", some "JMP"⟩]).length ∧
    ((aggregate_trace [⟨some "$9000", some "JMP"⟩]).map HotSpot.pc).Nodup ∧
    (∀ pc, pc ∈ (aggregate_trace [⟨some "$9000", some "JMP"⟩]).map HotSpot.pc ↔
      0 < countPC [⟨some "$9000", some "JMP"⟩] pc) :=
  C4_amended_trace_aggregation
    (fun _ => { data := .entries [⟨some "$9000", some "JMP"⟩] }) {}
    60 1 1 [⟨"$9000", 1, "JMP"⟩] (by decide)

/-! ## Claim C3: error propagation in workflows -/

/-- C3 counterexample: in `emu_debug_trace_and_summarize` no sub-call error
aborts the workflow or becomes its result.  With the first sub-call
(`trace.clear`) returning an error, all seven transport calls are still
issued and a summary — not that error — is returned. -/
theorem C3_counterexample :
    hasError ((fun i => if i = 0 then ({ error := some "boom" } : SendRes)
      else { data := .entries [] }) 0) = true ∧
    (emu_debug_trace_and_summarize
      (fun i => if i = 0 then ({ error := some "boom" } : SendRes)
        else { data := .entries [] }) {}).2.length = 7 ∧
    (emu_debug_trace_and_summarize
      (fun i => if i = 0 then ({ error := some "boom" } : SendRes)
        else { data := .entries [] }) {}).1 = .traceSummary 60 0 0 [] :=
  ⟨by decide, by decide, by decide⟩

/-- C3 amended: errors are checked and propagated only at designated
sub-calls.  In `emu_cheat_find_decrementing_value`, an error from the
`memory.snapshot` call (index 1) becomes the overall result and aborts
everything after it (only pause and snapshot were issued); an error from
the `memory.compare` call (index 5) becomes the overall result while the
best-effort run-state restoration still runs.  In
`emu_debug_trace_and_summarize` no sub-call error aborts the sequence: all
seven calls are always issued and a summary is always produced. -/
theorem C3_amended_error_propagation :
    (∀ (o : Nat → SendRes) (wp : Bool) (args : HunterArgs),
      hasError (o 1) = true →
        emu_cheat_find_decrementing_value o wp args =
          (.res (o 1),
            [⟨"execution.pause", []⟩,
             ⟨"memory.snapshot", [("name", .str "decr_hunt")]⟩])) ∧
    (∀ (o : Nat → SendRes) (wp : Bool) (args : HunterArgs),
      hasError (o 1) = false → hasError (o 5) = true →
        (emu_cheat_find_decrementing_value o wp args).1 = .res (o 5) ∧
        ((emu_cheat_find_decrementing_value o wp args).2).map SCall.action =
          (if wp then
            ["execution.pause", "memory.snapshot", "execution.resume",
             "execution.step", "execution.pause", "memory.compare"]
          else
            ["execution.pause", "memory.snapshot", "execution.resume",
             "execution.step", "execution.pause", "memory.compare",
             "execution.resume"])) ∧
    (∀ (o : Nat → SendRes) (args : TraceArgs),
      ((emu_debug_trace_and_summarize o args).2).map SCall.action =
        ["trace.clear", "trace.start", "execution.resume", "execution.step",
         "execution.pause", "trace.stop", "trace.get"] ∧
      ∃ fr il ua hs,
        (emu_debug_trace_and_summarize o args).1 = .traceSummary fr il ua hs) := by
  refine ⟨?_, ?_, ?_⟩
  · intro o wp args h
    simp [emu_cheat_find_decrementing_value, h]
  · intro o wp args h1 h5
    cases wp <;> simp [emu_cheat_find_decrementing_value, h1, h5]
  · intro o args
    exact ⟨by simp [emu_debug_trace_and_summarize], _, _, _, _, rfl⟩

/-- C3 amended witness: with a failing snapshot, the hunter returns the
snapshot error after issuing only the pause and snapshot calls. -/
theorem C3_amended_error_propagation_witness :
    emu_cheat_find_decrementing_value
        (fun _ => { error := some "snapshot failed" }) false {} =
      (.res ({ error := some "snapshot failed" } : SendRes),
        [⟨"execution.pause", []⟩,
         ⟨"memory.snapshot", [("name", .str "decr_hunt")]⟩]) :=
  C3_amended_error_propagation.1 (fun _ => { error := some "snapshot failed" })
    false {} (by decide)

/-! ## Claim C5: the decrementing-value filter -/

/-- The spec's combined candidate predicate: decreased by at least
`minDecrement` and, when an expected initial value was supplied, starting
from it. -/
def hunterQualifies (minDec : Int) (iv? : Option Int) (c : Candidate) : Bool :=
  decide (c.diff ≤ -minDec) &&
    (match iv? with
     | some iv => decide (c.old = iv)
     | none => true)

/-- C5. On a successful run, the hunter's candidate list is exactly the
peer's comparison candidates with `diff ≤ -minDecrement` and (when given)
`old = initialValue`, truncated to at most 200. -/
theorem C5_hunter_filter (o : Nat → SendRes) (wp : Bool) (args : HunterArgs)
    (res : List Candidate) (tf af : Nat) (fr : Int)
    (h1 : hasError (o 1) = false) (h5 : hasError (o 5) = false)
    (hout : (emu_cheat_find_decrementing_value o wp args).1 = .hunter res tf af fr) :
    res = ((getCandidates (o 5)).filter
      (hunterQualifies (args.minDecrement.getD 1) args.initialValue)).take 200 ∧
    res.length ≤ 200 ∧
    (∀ c ∈ res, c ∈ getCandidates (o 5) ∧
      c.diff ≤ -(args.minDecrement.getD 1) ∧
      ∀ iv, args.initialValue = some iv → c.old = iv) := by
  have hchain : res = ((getCandidates (o 5)).filter
      (hunterQualifies (args.minDecrement.getD 1) args.initialValue)).take 200 := by
    cases wp <;>
      · simp only [emu_cheat_find_decrementing_value, h1, Bool.false_eq_true, if_false,
          ite_true, ite_false, h5, ToolOutcome.hunter.injEq] at hout
        rw [← hout.1]
        cases hiv : args.initialValue with
        | none =>
          simp only [hiv]
          congr 1
          refine List.filter_congr ?_
          intro c _
          simp [hunterQualifies]
        | some iv =>
          simp only [hiv]
          rw [List.filter_filter]
          congr 1
          refine List.filter_congr ?_
          intro c _
          simp [hunterQualifies, Bool.and_comm]
  refine ⟨hchain, ?_, ?_⟩
  · rw [hchain]
    exact List.length_take_le _ _
  · intro c hc
    rw [hchain] at hc
    have hc2 := (List.take_sublist _ _).subset hc
    rw [List.mem_filter] at hc2
    obtain ⟨hcin, hq⟩ := hc2
    simp only [hunterQualifies, Bool.and_eq_true, decide_eq_true_eq] at hq
    refine ⟨hcin, hq.1, ?_⟩
    intro iv hiv
    have := hq.2
    rw [hiv] at this
    simpa using this

/-- C5 witness: the claim's concrete example — candidates at addresses 10
(diff -2) and 20 (diff 0) with `minDecrement = 1` filter down to address 10
only. -/
theorem C5_hunter_filter_witness :
    ([⟨10, 50, 48, -2⟩] : List Candidate) =
      (([⟨10, 50, 48, -2⟩, ⟨20, 5, 5, 0⟩] : List Candidate).filter
        (hunterQualifies 1 none)).take 200 ∧
    ([⟨10, 50, 48, -2⟩] : List Candidate).length ≤ 200 ∧
    (∀ c ∈ ([⟨10, 50, 48, -2⟩] : List Candidate),
      c ∈ ([⟨10, 50, 48, -2⟩, ⟨20, 5, 5, 0⟩] : List Candidate) ∧
      c.diff ≤ -1 ∧
      ∀ iv, (none : Option Int) = some iv → c.old = iv) :=
  C5_hunter_filter
    (fun i => if i = 5 then
        { data := .candidates [⟨10, 50, 48, -2⟩, ⟨20, 5, 5, 0⟩] }
      else {})
    false { minDecrement := some 1 } [⟨10, 50, 48, -2⟩] 2 1 60
    (by decide) (by decide) (by decide)

/-! ## Tool Front branches for the freeze family and stepping -/

/-- The gating flag, as configured in the source (disabled by default). -/
def FREEZE_FEATURE_ENABLED : Bool := false

/-- Model of the `emu_cheat_freeze_address` branch of `call_tool`: gated
on the flag; when disabled it returns the literal explanatory error
dictionary and contacts nothing. -/
def emu_cheat_freeze_address (enabled : Bool) (o : Nat → SendRes)
    (address value label domain : Option PVal) : ToolOutcome × List SCall :=
  if ¬enabled then
    (.freezeDisabled
      "Freeze feature is DISABLED by default."
      "To enable this feature, set FREEZE_FEATURE_ENABLED = True in bizhawk_mcp_server.py"
      "This prevents AI from automatically relying on freeze functionality. Enable manually when needed.",
      [])
  else
    (.res (o 0),
      [{ action := "freeze.add",
         params := [("address", address.getD .nil), ("value", value.getD .nil),
           ("label", label.getD .nil), ("domain", domain.getD .nil)] }])

/-- Model of the `emu_cheat_unfreeze_address` branch of `call_tool`: sends
`freeze.remove` unconditionally (no flag check in the source). -/
def emu_cheat_unfreeze_address (o : Nat → SendRes)
    (freezeId address allArg : Option PVal) : ToolOutcome × List SCall :=
  (.res (o 0),
    [{ action := "freeze.remove",
       params := [("id", freezeId.getD .nil), ("address", address.getD .nil),
         ("removeAll", allArg.getD (.boolv false))] }])

/-- Model of the `emu_cheat_list_freezes` branch of `call_tool`: sends
`freeze.list` unconditionally (no flag check in the source). -/
def emu_cheat_list_freezes (o : Nat → SendRes) : ToolOutcome × List SCall :=
  (.res (o 0), [{ action := "freeze.list", params := [] }])

/-- Model of the `emu_debug_step` branch of `call_tool`: the transport call
it issues. -/
def emu_debug_step (count : Option Int) (stepType : Option String) : SCall :=
  { action := "execution.step",
    params := [("count", .int (count.getD 1)), ("stepType", .str (stepType.getD "frame"))] }

/-- Model of the `emu_debug_frame_advance` branch of `call_tool`: the
transport call it issues. -/
def emu_debug_frame_advance (count : Option Int) : SCall :=
  { action := "execution.step",
    params := [("count", .int (count.getD 1)), ("stepType", .str "frame")] }

/-! ## Claim C1: freeze-family gating -/

/-- C1 counterexample: with the gating flag in its configured (false)
state, `emu_cheat_unfreeze_address` still contacts the peer — it issues a
`freeze.remove` transport call and returns the peer's result, not an
explanatory error. -/
theorem C1_counterexample :
    FREEZE_FEATURE_ENABLED = false ∧
    (emu_cheat_unfreeze_address (fun _ => {}) none none none).2 =
      [⟨"freeze.remove",
        [("id", .nil), ("address", .nil), ("removeAll", .boolv false)]⟩] ∧
    (emu_cheat_unfreeze_address (fun _ => {}) none none none).1 =
      .res {} ∧
    (emu_cheat_list_freezes (fun _ => {})).2 =
      [⟨"freeze.list", []⟩] :=
  ⟨rfl, rfl, rfl, rfl⟩

/-- C1 amended: only `emu_cheat_freeze_address` is gated behind
`FREEZE_FEATURE_ENABLED`; with the flag off it returns the explanatory
error dictionary and issues no transport call, while
`emu_cheat_unfreeze_address` and `emu_cheat_list_freezes` always issue
exactly one transport call (`freeze.remove` / `freeze.list`) regardless of
the flag. -/
theorem C1_amended_freeze_gating :
    (∀ (o : Nat → SendRes) (address value label domain : Option PVal),
      emu_cheat_freeze_address FREEZE_FEATURE_ENABLED o address value label domain =
        (.freezeDisabled
          "Freeze feature is DISABLED by default."
          "To enable this feature, set FREEZE_FEATURE_ENABLED = True in bizhawk_mcp_server.py"
          "This prevents AI from automatically relying on freeze functionality. Enable manually when needed.",
          [])) ∧
    (∀ (o : Nat → SendRes) (freezeId address allArg : Option PVal),
      ((emu_cheat_unfreeze_address o freezeId address allArg).2).map SCall.action =
        ["freeze.remove"] ∧
      (emu_cheat_unfreeze_address o freezeId address allArg).1 = .res (o 0)) ∧
    (∀ o : Nat → SendRes,
      ((emu_cheat_list_freezes o).2).map SCall.action = ["freeze.list"] ∧
      (emu_cheat_list_freezes o).1 = .res (o 0)) :=
  ⟨fun _ _ _ _ _ => rfl, fun _ _ _ _ => ⟨rfl, rfl⟩, fun _ => ⟨rfl, rfl⟩⟩

/-! ## Claim C10: frame advance is step with type frame -/

/-- C10. For every count argument (including the absent-key default),
`emu_debug_frame_advance` issues exactly the transport call that
`emu_debug_step` issues with the same count and `stepType = "frame"`:
action `execution.step` with `count` and `stepType="frame"`. -/
theorem C10_frame_advance_equiv_step :
    ∀ count : Option Int,
      emu_debug_frame_advance count = emu_debug_step count (some "frame") ∧
      emu_debug_frame_advance count =
        ⟨"execution.step",
          [("count", .int (count.getD 1)), ("stepType", .str "frame")]⟩ :=
  fun _ => ⟨rfl, rfl⟩

end BizHawk
